import Mathlib

/-!
Shallow embedding of the feeding-record visualization scripts
(`visualize_by_pen_with_acci.py`, `visualize_feeding_data.py`,
`visualize_with_accidents-stand.py`).  Numeric spreadsheet cells are
modelled as exact rationals, calendar dates as civil day numbers; rows
are modelled after the parsing/`dropna` steps the scripts perform, so
every record carries the fields the scripts actually read.
-/

namespace FeedViz

/-! ## Definitions -/

/-- Civil-calendar day number (proleptic Gregorian) of year/month/day, via
the standard days-from-civil algorithm; day 0 is 1970-01-01.  Models Python
`datetime.date` values at day granularity. -/
def daysFromCivil (y m d : ℤ) : ℤ :=
  let y2 : ℤ := if m ≤ 2 then y - 1 else y
  let era : ℤ := Int.fdiv y2 400
  let yoe : ℤ := y2 - era * 400
  let mp : ℤ := Int.emod (m + 9) 12
  let doy : ℤ := Int.fdiv (153 * mp + 2) 5 + d - 1
  let doe : ℤ := yoe * 365 + Int.fdiv yoe 4 - Int.fdiv yoe 100 + doy
  era * 146097 + doe - 719468

/-- Python `int()` applied to a numeric value: truncation toward zero. -/
def pyInt (q : ℚ) : ℤ := if 0 ≤ q then ⌊q⌋ else ⌈q⌉

/-- The spreadsheet-serial epoch used by the scripts:
`excel_epoch = datetime(1899, 12, 30)`. -/
def excelEpochDay : ℤ := daysFromCivil 1899 12 30

/-- Serial-number date normalization of the event extractors:
`excel_epoch + timedelta(days=int(date_num))`, taken at day granularity
(`.date()`). -/
def serialToDay (q : ℚ) : ℤ := excelEpochDay + pyInt q

/-- A Python/numpy float value as produced by the pipeline: either an
ordinary finite number or one of the non-finite sentinels that float
division by zero produces. -/
inductive PyFloat where
  | fin (q : ℚ)
  | inf
  | ninf
  | nan
deriving DecidableEq, Repr

/-- Float division as numpy/pandas performs it on series: finite quotient
for a non-zero divisor; `inf`, `-inf` or `nan` (never an exception) when the
divisor is zero. -/
def pyDiv (a b : ℚ) : PyFloat :=
  if b ≠ 0 then .fin (a / b)
  else if 0 < a then .inf
  else if a < 0 then .ninf
  else .nan

/-- Truth of being an ordinary finite float value. -/
def PyFloat.isFin : PyFloat → Bool
  | .fin _ => true
  | _ => false

/-- Duplicate removal keeping the first occurrence of each element, as
`pandas.Series.unique` does. -/
def dedupFirst {α : Type} [DecidableEq α] : List α → List α
  | [] => []
  | a :: l => a :: (dedupFirst l).filter (fun x => x ≠ a)

/-- One feeding record after column resolution, date parsing and the
`dropna` over the four required fields: enclosure number, date, per-pen
feed amount and per-pen water amount are all present and valid. -/
structure FeedRec where
  pen : ℤ
  date : ℤ
  feed : ℚ
  water : ℚ
deriving DecidableEq, Repr

/-- Grouping key `(enclosure, date)` of a feeding record. -/
def recKey (r : FeedRec) : ℤ × ℤ := (r.pen, r.date)

/-- One row of the daily aggregate produced by `read_and_process_by_pen`. -/
structure AggRow where
  pen : ℤ
  date : ℤ
  total_feed : ℚ
  total_water : ℚ
  ratio : PyFloat
deriving DecidableEq, Repr

/-- Key `(enclosure, date)` of an aggregate row. -/
def rowKey (r : AggRow) : ℤ × ℤ := (r.pen, r.date)

/-- Lexicographic order on `(enclosure, date)` keys, the order of
`sort_values(['栏号', '日期'])`. -/
def keyLe (a b : ℤ × ℤ) : Prop := a.1 < b.1 ∨ (a.1 = b.1 ∧ a.2 ≤ b.2)

instance : DecidableRel keyLe := fun a b => by
  unfold keyLe; infer_instance

instance : IsTotal (ℤ × ℤ) keyLe := by
  constructor; intro a b; unfold keyLe; omega

instance : IsTrans (ℤ × ℤ) keyLe := by
  constructor; intro a b c; unfold keyLe; omega

/-- Sum of the feed amounts of the records contributing to key `k`. -/
def sumFeedAt (rs : List FeedRec) (k : ℤ × ℤ) : ℚ :=
  ((rs.filter (fun r => recKey r = k)).map FeedRec.feed).sum

/-- Sum of the water amounts of the records contributing to key `k`. -/
def sumWaterAt (rs : List FeedRec) (k : ℤ × ℤ) : ℚ :=
  ((rs.filter (fun r => recKey r = k)).map FeedRec.water).sum

/-- Sorted list of distinct `(enclosure, date)` keys of the input,
i.e. the index produced by `groupby([pen_col, date_col])` followed by
`sort_values(['栏号', '日期'])`. -/
def groupKeys (rs : List FeedRec) : List (ℤ × ℤ) :=
  List.insertionSort keyLe (dedupFirst (rs.map recKey))

/-- Aggregate row built for key `k`: per-group sums of feed and water, and
the water/feed ratio computed afterwards on the summed columns
(`daily_data['水料比'] = daily_data['每日喂水总量'] / daily_data['每日采食总量']`). -/
def mkAggRow (rs : List FeedRec) (k : ℤ × ℤ) : AggRow :=
  { pen := k.1
    date := k.2
    total_feed := sumFeedAt rs k
    total_water := sumWaterAt rs k
    ratio := pyDiv (sumWaterAt rs k) (sumFeedAt rs k) }

/-- Model of `read_and_process_by_pen` (`visualize_by_pen_with_acci.py`,
lines 123–201), after loading: group the valid records by
`(enclosure, date)`, sum feed and water within each group, sort by
`(enclosure, date)` and compute the water/feed ratio per output row. -/
def read_and_process_by_pen (rs : List FeedRec) : List AggRow :=
  (groupKeys rs).map (mkAggRow rs)

/-- One feeding-log row of the unit-level scripts after parsing: the date
together with the (precomputed) day totals read from the file. -/
structure UnitRec where
  date : ℤ
  feed : ℚ
  water : ℚ
deriving DecidableEq, Repr

/-- One row of the unit-level daily series. -/
structure UnitRow where
  date : ℤ
  feed : ℚ
  water : ℚ
  ratio : PyFloat
deriving DecidableEq, Repr

/-- Model of `read_and_process_file` (`visualize_feeding_data.py`, lines
22–86): group by date taking the first row's totals per date (the day's
duplicate rows are trusted to agree), sort by date, then compute the
water/feed ratio per output row.  Records are modelled after parsing, so
the post-aggregation `dropna` is a no-op.  The `getD` default is
unreachable: every grouped date comes from some record. -/
def read_and_process_file (rs : List UnitRec) : List UnitRow :=
  (List.insertionSort (· ≤ ·) (dedupFirst (rs.map UnitRec.date))).map fun d =>
    let r := (rs.find? (fun x => x.date == d)).getD ⟨d, 0, 0⟩
    { date := d, feed := r.feed, water := r.water, ratio := pyDiv r.water r.feed }

/-- One stage of the feeding-standard table parsed by
`read_henan_standard`: an inclusive age range in days together with the
standard per-head daily feed for that range. -/
structure Stage where
  age_start : ℤ
  age_end : ℤ
  daily_feed_per_head : ℚ
deriving DecidableEq, Repr

/-- Stage-membership test of `get_standard_feed_by_age`:
`std['age_start'] <= age <= std['age_end']`. -/
def stageMatches (age : ℤ) (s : Stage) : Bool :=
  decide (s.age_start ≤ age ∧ age ≤ s.age_end)

/-- Model of `get_standard_feed_by_age`
(`visualize_with_accidents-stand.py`, lines 181–192): return the first
stage whose range contains `age`; otherwise, for a non-empty table, clamp
an age below the first stage's start to the first stage's value and an age
above the last stage's end to the last stage's value; in every remaining
case return `None`. -/
def get_standard_feed_by_age (standards : List Stage) (age : ℤ) : Option ℚ :=
  match standards.find? (stageMatches age) with
  | some s => some s.daily_feed_per_head
  | none =>
    match standards with
    | [] => none
    | s0 :: rest =>
      if age < s0.age_start then some s0.daily_feed_per_head
      else if ((s0 :: rest).getLast (List.cons_ne_nil s0 rest)).age_end < age then
        some ((s0 :: rest).getLast (List.cons_ne_nil s0 rest)).daily_feed_per_head
      else none

/-- Age clamping of `create_visualization_with_accidents` (lines 321–326):
`current_age` is forced into `[start_age, end_age]`. -/
def clampAge (start_age end_age a : ℤ) : ℤ :=
  if a < start_age then start_age else if a > end_age then end_age else a

/-- Standard-curve computation of `create_visualization_with_accidents`
(lines 304–350): for each date, age = `start_age + (date - first_date).days`
clamped to `[start_age, end_age]`; a date contributes a point exactly when
the resolved per-head feed is truthy (not `None` and non-zero), with
standard feed `v × head_count` and standard water `v × 3 × head_count`. -/
def computeStandardCurve (standards : List Stage) (total_head_count : ℚ)
    (start_age end_age : ℤ) (dates : List ℤ) : List (ℤ × ℚ × ℚ) :=
  match dates with
  | [] => []
  | d0 :: tl =>
    (d0 :: tl).filterMap fun d =>
      let age := clampAge start_age end_age (start_age + (d - d0))
      match get_standard_feed_by_age standards age with
      | some v =>
        if v ≠ 0 then some (d, v * total_head_count, v * 3 * total_head_count) else none
      | none => none

/-- A raw cell of the event sheet's date column: a numeric (int/float)
value — the serial encoding —, a datetime-typed value (already a calendar
date, carried as a day number), an arbitrary text value, or a missing
value (`NaN`). -/
inductive Cell where
  | num (q : ℚ)
  | dt (d : ℤ)
  | text (s : String)
  | empty
deriving DecidableEq, Repr

/-- Truth of `isinstance(x, (int, float))` for a present cell value;
`NaN` cells are separated out as `empty`, matching the `pd.notna` guard. -/
def Cell.isNum : Cell → Bool
  | .num _ => true
  | _ => false

/-- One row of the event sheet (`Sheet1`): the serial-encoded date column
and the three count columns, each either a numeric value or missing. -/
structure EventRow where
  date : Cell
  transfer : Option ℚ
  sale : Option ℚ
  treat : Option ℚ
deriving DecidableEq, Repr

/-- Row selection applied to a count column:
`df[col].notna() & (df[col] != 0)`. -/
def countSelected (c : Option ℚ) : Bool := decide (c ≠ none ∧ c ≠ some 0)

/-- Date handling inside the extraction loops:
`if pd.notna(date_num) and isinstance(date_num, (int, float))` then the
serial value is normalized, otherwise the row yields nothing. -/
def rowSerialDay : Cell → Option ℤ
  | .num q => some (serialToDay q)
  | _ => none

/-- Model of the extraction loops of `read_transfer_and_sale_dates`
(`visualize_by_pen_with_acci.py`, lines 48–87): select the rows whose
transfer (resp. sale) count is present and non-zero, keep those with a
numeric date cell, normalize the serial dates and sort each list
ascending. -/
def read_transfer_and_sale_dates (rows : List EventRow) : List ℤ × List ℤ :=
  let transfer_dates :=
    (rows.filter fun r => countSelected r.transfer).filterMap fun r => rowSerialDay r.date
  let sale_dates :=
    (rows.filter fun r => countSelected r.sale).filterMap fun r => rowSerialDay r.date
  (List.insertionSort (· ≤ ·) transfer_dates, List.insertionSort (· ≤ ·) sale_dates)

/-- Insertion-ordered dictionary update with accumulate-on-collision, the
behaviour of `treatment_dict[date_key] += float(count)` /
`treatment_dict[date_key] = float(count)` on a Python dict. -/
def accAdd : List (ℤ × ℚ) → ℤ → ℚ → List (ℤ × ℚ)
  | [], k, v => [(k, v)]
  | (k0, v0) :: rest, k, v =>
    if k0 = k then (k0, v0 + v) :: rest else (k0, v0) :: accAdd rest k v

/-- Loop body of `read_treatment_dates`: rows with a numeric date cell
accumulate their count under the normalized date; other rows are
skipped. -/
def treatStep (d : List (ℤ × ℚ)) (r : EventRow) : List (ℤ × ℚ) :=
  match rowSerialDay r.date with
  | some key => accAdd d key (r.treat.getD 0)
  | none => d

/-- Model of `read_treatment_dates` (`visualize_by_pen_with_acci.py`,
lines 89–121): select the rows whose treatment count is present and
non-zero, then fold them into a date→total mapping (an insertion-ordered
association list, as a Python dict). -/
def read_treatment_dates (rows : List EventRow) : List (ℤ × ℚ) :=
  (rows.filter fun r => countSelected r.treat).foldl treatStep []

/-- Per-key total count contributed by a list of (already selected)
rows. -/
def treatContribSum (sel : List EventRow) (k : ℤ) : ℚ :=
  ((sel.filter fun r => rowSerialDay r.date = some k).map fun r => r.treat.getD 0).sum

/-- Model of `read_accident_dates` (`visualize_by_pen_with_acci.py`, lines
13–46): `none` stands for a missing file, a read error or an absent
`事故日期` column (the guarded/`except` paths, which warn and return `[]`);
otherwise the cells are the accident-date column after
`pd.to_datetime(errors='coerce')` truncated to days — `some` a day number
for a parsed value, `none` for `NaT` (missing or unparsable) — which are
kept, deduplicated keeping first occurrences, and sorted. -/
def read_accident_dates (src : Option (List (Option ℤ))) : List ℤ :=
  match src with
  | none => []
  | some cells => List.insertionSort (· ≤ ·) (dedupFirst (cells.filterMap id))

/-- Model of `read_transfer_and_sale_dates` including its `try/except`:
`none` stands for a missing file, a missing `Sheet1` or a missing
`日期`/`转出`/`销售` column (a raised `KeyError`), on which the handler
warns and returns two empty lists. -/
def read_transfer_and_sale_dates_total (src : Option (List EventRow)) : List ℤ × List ℤ :=
  match src with
  | none => ([], [])
  | some rows => read_transfer_and_sale_dates rows

/-- Model of `read_treatment_dates` including its `try/except`: `none`
stands for a missing file, sheet or column, on which the handler warns and
returns an empty mapping. -/
def read_treatment_dates_total (src : Option (List EventRow)) : List (ℤ × ℚ) :=
  match src with
  | none => []
  | some rows => read_treatment_dates rows

/-- Helper for substring containment on character lists. -/
def containsAux (pat : List Char) : List Char → Bool
  | [] => pat.isEmpty
  | c :: rest => pat.isPrefixOf (c :: rest) || containsAux pat rest

/-- Python's `in` operator on strings: `pat in s`. -/
def strContains (s pat : String) : Bool := containsAux pat.toList s.toList

/-- Predicate of the date-column loop:
`'日期' in col_str or 'date' in col_str.lower() or '饲喂日期' in col_str`. -/
def isDateCol (c : String) : Bool :=
  strContains c "日期" || strContains c.toLower "date" || strContains c "饲喂日期"

/-- Predicate of the pen-column loop: `'栏号' in col_str or '栏' in col_str`. -/
def isPenCol (c : String) : Bool := strContains c "栏号" || strContains c "栏"

/-- Predicate of the feed-column test:
`'单栏' in col_str and ('采食' in col_str or '喂料' in col_str or '料量' in col_str)`. -/
def isFeedCol (c : String) : Bool :=
  strContains c "单栏" &&
    (strContains c "采食" || strContains c "喂料" || strContains c "料量")

/-- Predicate of the water-column test:
`'单栏' in col_str and ('喂水' in col_str or '饮水' in col_str or '水量' in col_str)`. -/
def isWaterCol (c : String) : Bool :=
  strContains c "单栏" &&
    (strContains c "喂水" || strContains c "饮水" || strContains c "水量")

/-- The feed/water column loop of `read_and_process_by_pen` (lines
162–167): it has no `break`, so both trackers are overwritten on every
later match. -/
def findFeedWaterCols (cols : List String) : Option String × Option String :=
  cols.foldl
    (fun acc c =>
      (if isFeedCol c then some c else acc.1,
       if isWaterCol c then some c else acc.2))
    (none, none)

/-- The four resolved column names of the per-enclosure loader. -/
structure ResolvedCols where
  dateCol : String
  penCol : String
  feedCol : String
  waterCol : String
deriving DecidableEq, Repr

/-- Outcome of column resolution: either all four roles resolved, or the
failure path that warns, prints the available columns and returns
`None`. -/
inductive LoadResult where
  | ok (r : ResolvedCols)
  | missingColumn (available : List String)
deriving DecidableEq, Repr

/-- Column resolution of `read_and_process_by_pen`
(`visualize_by_pen_with_acci.py`, lines 132–172), over the trimmed column
names: the date and pen loops stop at the first match (`break`); the
feed/water loop scans all columns without `break`; any unresolved role
aborts this file with the available columns reported. -/
def resolve_columns (cols : List String) : LoadResult :=
  match cols.find? isDateCol with
  | none => .missingColumn cols
  | some dc =>
    match cols.find? isPenCol with
    | none => .missingColumn cols
    | some pc =>
      match findFeedWaterCols cols with
      | (some fc, some wc) => .ok ⟨dc, pc, fc, wc⟩
      | _ => .missingColumn cols

/-! ## Helper lemmas -/

theorem mem_dedupFirst {α : Type} [DecidableEq α] (l : List α) (x : α) :
    x ∈ dedupFirst l ↔ x ∈ l := by
  induction l with
  | nil => simp [dedupFirst]
  | cons a l ih =>
    simp only [dedupFirst, List.mem_cons, List.mem_filter, decide_eq_true_eq, ih]
    by_cases hx : x = a <;> simp [hx]

theorem nodup_dedupFirst {α : Type} [DecidableEq α] (l : List α) :
    (dedupFirst l).Nodup := by
  induction l with
  | nil => simp [dedupFirst]
  | cons a l ih =>
    refine List.Nodup.cons ?_ (List.Nodup.filter _ ih)
    intro hmem
    have := (List.mem_filter.mp hmem).2
    simp at this

theorem rowKey_mkAggRow (rs : List FeedRec) (k : ℤ × ℤ) :
    rowKey (mkAggRow rs k) = k := rfl

theorem map_rowKey_read_and_process_by_pen (rs : List FeedRec) :
    (read_and_process_by_pen rs).map rowKey = groupKeys rs := by
  unfold read_and_process_by_pen
  rw [List.map_map]
  have : rowKey ∘ mkAggRow rs = id := by
    funext k; rfl
  rw [this, List.map_id]

theorem nodup_groupKeys (rs : List FeedRec) : (groupKeys rs).Nodup :=
  (List.perm_insertionSort keyLe _).nodup_iff.mpr (nodup_dedupFirst _)

theorem mem_groupKeys (rs : List FeedRec) (k : ℤ × ℤ) :
    k ∈ groupKeys rs ↔ k ∈ rs.map recKey :=
  ((List.perm_insertionSort keyLe _).mem_iff).trans (mem_dedupFirst _ _)

theorem pairwise_groupKeys (rs : List FeedRec) :
    (groupKeys rs).Pairwise keyLe :=
  List.sorted_insertionSort keyLe _

theorem pyDiv_zero_not_fin (a : ℚ) : (pyDiv a 0).isFin = false := by
  unfold pyDiv
  simp only [ne_eq, not_true_eq_false, if_false]
  split <;> [rfl; skip]
  split <;> rfl

theorem lookup_cons_key (k a : ℤ) (b : ℚ) (l : List (ℤ × ℚ)) :
    List.lookup k ((a, b) :: l) = if k = a then some b else List.lookup k l := by
  by_cases h : k = a
  · subst h; simp [List.lookup]
  · have hb : (k == a) = false := by simp [beq_iff_eq]; omega
    simp [List.lookup, hb, h]

theorem lookup_accAdd_self (l : List (ℤ × ℚ)) (k : ℤ) (v : ℚ) :
    List.lookup k (accAdd l k v) = some ((List.lookup k l).getD 0 + v) := by
  induction l with
  | nil => simp [accAdd, lookup_cons_key, List.lookup]
  | cons p rest ih =>
    obtain ⟨k0, v0⟩ := p
    by_cases hk : k0 = k
    · subst hk
      simp [accAdd, lookup_cons_key]
    · simp only [accAdd, if_neg hk]
      rw [lookup_cons_key, lookup_cons_key, if_neg (by omega), if_neg (by omega), ih]

theorem lookup_accAdd_other (l : List (ℤ × ℚ)) (k k' : ℤ) (v : ℚ) (hne : k' ≠ k) :
    List.lookup k' (accAdd l k v) = List.lookup k' l := by
  induction l with
  | nil =>
    have hb : (k' == k) = false := by simp [beq_iff_eq]; omega
    simp [accAdd, List.lookup, hb]
  | cons p rest ih =>
    obtain ⟨k0, v0⟩ := p
    by_cases hk : k0 = k
    · subst hk
      have ha : accAdd ((k0, v0) :: rest) k0 v = (k0, v0 + v) :: rest := by
        simp [accAdd]
      rw [ha, lookup_cons_key, lookup_cons_key, if_neg hne, if_neg hne]
    · simp only [accAdd, if_neg hk]
      rw [lookup_cons_key, lookup_cons_key, ih]

theorem treat_foldl_invariant (sel : List EventRow) :
    ∀ (d : List (ℤ × ℚ)) (k : ℤ),
      (List.lookup k (sel.foldl treatStep d)).getD 0
        = (List.lookup k d).getD 0 + treatContribSum sel k
    ∧ (List.lookup k (sel.foldl treatStep d) = none ↔
        (List.lookup k d = none ∧ (sel.filter fun r => rowSerialDay r.date = some k) = [])) := by
  induction sel with
  | nil => intro d k; simp [treatContribSum]
  | cons r rest ih =>
    intro d k
    rcases hd : rowSerialDay r.date with _ | key
    · have hstep : treatStep d r = d := by simp [treatStep, hd]
      have hfilter : ((r :: rest).filter fun r => rowSerialDay r.date = some k)
          = rest.filter fun r => rowSerialDay r.date = some k := by
        simp [List.filter, hd]
      constructor
      · rw [List.foldl_cons, hstep, (ih d k).1]
        simp [treatContribSum, hfilter]
      · rw [List.foldl_cons, hstep, hfilter]
        exact (ih d k).2
    · by_cases hk : key = k
      · subst hk
        have hfilter : ((r :: rest).filter fun x => rowSerialDay x.date = some key)
            = r :: (rest.filter fun x => rowSerialDay x.date = some key) := by
          simp [List.filter, hd]
        have hstep : treatStep d r = accAdd d key (r.treat.getD 0) := by
          simp [treatStep, hd]
        constructor
        · rw [List.foldl_cons, hstep, (ih _ key).1, lookup_accAdd_self]
          simp [treatContribSum, hfilter]
          ring
        · rw [List.foldl_cons, hstep, hfilter]
          constructor
          · intro h
            have := ((ih _ key).2.mp h).1
            rw [lookup_accAdd_self] at this
            cases this
          · rintro ⟨-, h⟩
            cases h
      · have hfilter : ((r :: rest).filter fun x => rowSerialDay x.date = some k)
            = rest.filter fun x => rowSerialDay x.date = some k := by
          simp [List.filter, hd, hk]
        have hstep : treatStep d r = accAdd d key (r.treat.getD 0) := by
          simp [treatStep, hd]
        constructor
        · rw [List.foldl_cons, hstep, (ih _ k).1, lookup_accAdd_other _ _ _ _ (by omega)]
          simp [treatContribSum, hfilter]
        · rw [List.foldl_cons, hstep, hfilter]
          rw [(ih _ k).2, lookup_accAdd_other _ _ _ _ (by omega)]

theorem rowSerialDay_eq_none (c : Cell) (h : c.isNum = false) : rowSerialDay c = none := by
  cases c <;> simp_all [rowSerialDay, Cell.isNum]

theorem filterMap_serial_restrict (p : EventRow → Bool) (rows : List EventRow) :
    ((rows.filter p).filterMap fun r => rowSerialDay r.date)
      = ((rows.filter fun r => p r && r.date.isNum).filterMap
          fun r => rowSerialDay r.date) := by
  induction rows with
  | nil => rfl
  | cons r rest ih =>
    by_cases hn : r.date.isNum
    · by_cases hp : p r <;> simp [List.filter_cons, hn, hp, List.filterMap_cons, ih]
    · have hserial : rowSerialDay r.date = none :=
        rowSerialDay_eq_none _ (by simpa using hn)
      by_cases hp : p r <;>
        simp [List.filter_cons, hn, hp, List.filterMap_cons, ih, hserial]

theorem treat_fold_restrict (rows : List EventRow) :
    ∀ d, ((rows.filter fun r => countSelected r.treat).foldl treatStep d)
      = ((rows.filter fun r => countSelected r.treat && r.date.isNum).foldl treatStep d) := by
  induction rows with
  | nil => intro d; rfl
  | cons r rest ih =>
    intro d
    by_cases hn : r.date.isNum
    · by_cases hp : countSelected r.treat <;> simp [List.filter_cons, hn, hp, ih]
    · have hstep : ∀ d', treatStep d' r = d' := by
        intro d'
        simp [treatStep, rowSerialDay_eq_none _ (by simpa using hn)]
      by_cases hp : countSelected r.treat <;> simp [List.filter_cons, hn, hp, ih, hstep]

theorem foldl_pair {α β γ : Type} (f : α → γ → α) (g : β → γ → β) (l : List γ) :
    ∀ (a : α) (b : β),
      l.foldl (fun acc c => (f acc.1 c, g acc.2 c)) (a, b) = (l.foldl f a, l.foldl g b) := by
  induction l with
  | nil => intro a b; rfl
  | cons c l ih => intro a b; simp only [List.foldl_cons]; exact ih _ _

theorem foldl_lastMatch {α : Type} (p : α → Bool) (l : List α) :
    ∀ init : Option α,
      l.foldl (fun acc c => if p c then some c else acc) init
        = (l.reverse.find? p).or init := by
  induction l with
  | nil => intro init; simp
  | cons c l ih =>
    intro init
    rw [List.foldl_cons, ih, List.reverse_cons, List.find?_append]
    rcases hfind : l.reverse.find? p with _ | x
    · cases hp : p c <;> simp [List.find?, hp, Option.or]
    · simp [Option.or]

theorem findFeedWaterCols_eq (cols : List String) :
    findFeedWaterCols cols
      = (cols.reverse.find? isFeedCol, cols.reverse.find? isWaterCol) := by
  unfold findFeedWaterCols
  rw [foldl_pair (fun acc c => if isFeedCol c then some c else acc)
    (fun acc c => if isWaterCol c then some c else acc) cols none none]
  rw [foldl_lastMatch, foldl_lastMatch, Option.or_none, Option.or_none]

/-! ## Claims -/

/-- C1: In per-enclosure mode, for every set of feeding records with valid
(date, enclosure id, feed, water) fields, the daily aggregate produced by
`read_and_process_by_pen` has exactly one row per `(enclosure_id, date)`
(the row keys are duplicate-free and are exactly the keys occurring among
the records), whose `total_feed` and `total_water` equal the exact sum of
the contributing records' feed and water values, with the output sorted by
`(enclosure_id, date)` and the ratio computed per row as
`total_water / total_feed`; in particular, three records for enclosure 5 on
2025-09-01 with feed 10, 12, 8 and water 30, 33, 27 plus a record on
2025-09-02 with feed 20, water 60 yield rows
(2025-09-01, feed=30, water=90, ratio=3.0) and
(2025-09-02, feed=20, water=60, ratio=3.0). -/
theorem read_and_process_by_pen_correct :
    (∀ rs : List FeedRec,
        ((read_and_process_by_pen rs).map rowKey).Nodup
      ∧ (∀ k : ℤ × ℤ, k ∈ (read_and_process_by_pen rs).map rowKey ↔ k ∈ rs.map recKey)
      ∧ (∀ row ∈ read_and_process_by_pen rs,
            row.total_feed = sumFeedAt rs (rowKey row)
          ∧ row.total_water = sumWaterAt rs (rowKey row)
          ∧ row.ratio = pyDiv row.total_water row.total_feed)
      ∧ (read_and_process_by_pen rs).Pairwise (fun a b => keyLe (rowKey a) (rowKey b)))
  ∧ read_and_process_by_pen
      [⟨5, daysFromCivil 2025 9 1, 10, 30⟩, ⟨5, daysFromCivil 2025 9 1, 12, 33⟩,
       ⟨5, daysFromCivil 2025 9 1, 8, 27⟩, ⟨5, daysFromCivil 2025 9 2, 20, 60⟩] =
      [⟨5, daysFromCivil 2025 9 1, 30, 90, .fin 3⟩,
       ⟨5, daysFromCivil 2025 9 2, 20, 60, .fin 3⟩] := by
  constructor
  · intro rs
    refine ⟨?_, ?_, ?_, ?_⟩
    · rw [map_rowKey_read_and_process_by_pen]; exact nodup_groupKeys rs
    · intro k; rw [map_rowKey_read_and_process_by_pen]; exact mem_groupKeys rs k
    · intro row hrow
      obtain ⟨k, _, rfl⟩ := List.mem_map.mp hrow
      exact ⟨rfl, rfl, rfl⟩
    · have h := pairwise_groupKeys rs
      unfold read_and_process_by_pen
      rw [List.pairwise_map]
      exact h.imp (fun hab => by rwa [rowKey_mkAggRow, rowKey_mkAggRow])
  · have h1 : daysFromCivil 2025 9 1 = 20332 := by decide
    have h2 : daysFromCivil 2025 9 2 = 20333 := by decide
    norm_num [read_and_process_by_pen, groupKeys, dedupFirst, recKey,
      mkAggRow, sumFeedAt, sumWaterAt, List.insertionSort, List.orderedInsert,
      keyLe, pyDiv, h1, h2, List.filter]

/-- Witness for C1 at a one-record input. -/
theorem read_and_process_by_pen_correct_witness :
    ((read_and_process_by_pen
        [⟨5, daysFromCivil 2025 9 1, 10, 30⟩]).map rowKey).Nodup
  ∧ (5, daysFromCivil 2025 9 1) ∈
      (read_and_process_by_pen [⟨5, daysFromCivil 2025 9 1, 10, 30⟩]).map rowKey := by
  have h := read_and_process_by_pen_correct.1 [⟨5, daysFromCivil 2025 9 1, 10, 30⟩]
  exact ⟨h.1, (h.2.1 (5, daysFromCivil 2025 9 1)).mpr (by decide)⟩

/-- C2: For every daily aggregate row (per-enclosure or unit-level), the
water/feed ratio is computed after aggregation as
`total_water / total_feed` under the total float-division semantics, and
when `total_feed = 0` the result is one of the defined non-finite
sentinels (`inf`, `-inf`, `nan`) rather than a runtime fault. -/
theorem ratio_after_aggregation_safe :
    (∀ rs : List FeedRec, ∀ row ∈ read_and_process_by_pen rs,
        row.ratio = pyDiv row.total_water row.total_feed
      ∧ (row.total_feed = 0 → row.ratio.isFin = false))
  ∧ (∀ rs : List UnitRec, ∀ row ∈ read_and_process_file rs,
        row.ratio = pyDiv row.water row.feed
      ∧ (row.feed = 0 → row.ratio.isFin = false)) := by
  constructor
  · intro rs row hrow
    obtain ⟨k, _, rfl⟩ := List.mem_map.mp hrow
    refine ⟨rfl, fun h0 => ?_⟩
    show (pyDiv (sumWaterAt rs k) (sumFeedAt rs k)).isFin = false
    have : sumFeedAt rs k = 0 := h0
    rw [this]
    exact pyDiv_zero_not_fin _
  · intro rs row hrow
    obtain ⟨d, _, rfl⟩ := List.mem_map.mp hrow
    refine ⟨rfl, fun h0 => ?_⟩
    dsimp only at h0 ⊢
    rw [h0]
    exact pyDiv_zero_not_fin _

/-- Witness for C2 at a record whose feed total is zero. -/
theorem ratio_after_aggregation_safe_witness :
    (⟨1, 0, 0, 5, PyFloat.inf⟩ : AggRow).ratio.isFin = false := by
  have hmem : (⟨1, 0, 0, 5, PyFloat.inf⟩ : AggRow) ∈
      read_and_process_by_pen [⟨1, 0, 0, 5⟩] := by
    norm_num [read_and_process_by_pen, groupKeys, dedupFirst, recKey, mkAggRow,
      sumFeedAt, sumWaterAt, List.insertionSort, List.filter, pyDiv]
  exact (ratio_after_aggregation_safe.1 [⟨1, 0, 0, 5⟩] _ hmem).2 rfl

/-- C3 counterexample: the stage table `[(26–30 → 6/5), (35–40 → 3/2)]` is
non-empty, yet age 32 — matched by no stage, lying in the interior gap
between the two stages — resolves to `none` instead of a per-head feed
value: the resolver does fail on gap ages, so the standard series is not
always dense. -/
theorem get_standard_feed_by_age_gap_cex :
    ([⟨26, 30, (6 : ℚ)/5⟩, ⟨35, 40, 3/2⟩] : List Stage) ≠ []
  ∧ get_standard_feed_by_age [⟨26, 30, 6/5⟩, ⟨35, 40, 3/2⟩] 32 = none :=
  ⟨by simp, rfl⟩

/-- C3 (amended): for every age queried against a non-empty stage table,
an age inside a stage's `[age_start, age_end]` range gets the first
matching stage's value; an age below the first stage's start gets the
first stage's value and an age above the last stage's end gets the last
stage's value; but an unmatched age between those boundaries (an interior
gap of the table) yields no value at all, so the resolved series is not
guaranteed dense. -/
theorem get_standard_feed_by_age_cases (standards : List Stage) (age : ℤ)
    (hne : standards ≠ []) :
    (∀ s, standards.find? (stageMatches age) = some s →
        get_standard_feed_by_age standards age = some s.daily_feed_per_head)
  ∧ (standards.find? (stageMatches age) = none →
     age < (standards.head hne).age_start →
        get_standard_feed_by_age standards age = some (standards.head hne).daily_feed_per_head)
  ∧ (standards.find? (stageMatches age) = none →
     (standards.head hne).age_start ≤ age → (standards.getLast hne).age_end < age →
        get_standard_feed_by_age standards age = some (standards.getLast hne).daily_feed_per_head)
  ∧ (standards.find? (stageMatches age) = none →
     (standards.head hne).age_start ≤ age → age ≤ (standards.getLast hne).age_end →
        get_standard_feed_by_age standards age = none) := by
  obtain ⟨s0, rest, rfl⟩ : ∃ s0 rest, standards = s0 :: rest := by
    cases standards with
    | nil => exact absurd rfl hne
    | cons a l => exact ⟨a, l, rfl⟩
  refine ⟨?_, ?_, ?_, ?_⟩
  · intro s hfind
    simp only [get_standard_feed_by_age, hfind]
  · intro hfind hlt
    simp only [get_standard_feed_by_age, hfind, List.head_cons] at hlt ⊢
    rw [if_pos hlt]
  · intro hfind hge hgt
    simp only [get_standard_feed_by_age, hfind, List.head_cons, List.getLast_cons] at hge hgt ⊢
    rw [if_neg (by omega), if_pos hgt]
  · intro hfind hge hle
    simp only [get_standard_feed_by_age, hfind, List.head_cons, List.getLast_cons] at hge hle ⊢
    rw [if_neg (by omega), if_neg (by omega)]

/-- Witness for C3 (amended): a matched age and a gap age on a concrete
table. -/
theorem get_standard_feed_by_age_cases_witness :
    get_standard_feed_by_age [⟨26, 30, 6/5⟩, ⟨35, 40, 3/2⟩] 28 = some (6/5)
  ∧ get_standard_feed_by_age [⟨26, 30, 6/5⟩, ⟨35, 40, 3/2⟩] 32 = none := by
  have h32 := get_standard_feed_by_age_cases [⟨26, 30, 6/5⟩, ⟨35, 40, 3/2⟩] 32 (by simp)
  have h28 := get_standard_feed_by_age_cases [⟨26, 30, 6/5⟩, ⟨35, 40, 3/2⟩] 28 (by simp)
  exact ⟨h28.1 ⟨26, 30, 6/5⟩ rfl, h32.2.2.2 rfl (by decide) (by decide)⟩

/-- C4 counterexample: the scripts' epoch day 0 is 1899-12-30, which is
not the calendar date immediately preceding 1900-01-01 (that date is
1899-12-31): serial 0 converts to 1899-12-30, two days before
1900-01-01. -/
theorem serial_epoch_cex :
    daysFromCivil 1899 12 31 + 1 = daysFromCivil 1900 1 1
  ∧ serialToDay 0 ≠ daysFromCivil 1899 12 31
  ∧ serialToDay 0 = daysFromCivil 1899 12 30 := by
  have h : pyInt 0 = 0 := by norm_num [pyInt]
  refine ⟨by decide, ?_, ?_⟩
  · rw [serialToDay, h]
    decide
  · rw [serialToDay, h]
    decide

/-- C4 (amended): spreadsheet-serial date conversion maps a nonnegative
serial with integer part `N` to `epoch_date + N` days, discarding any
sub-day fractional component, where day 0 of the epoch is 1899-12-30 —
two calendar days before 1900-01-01 (the Excel/Lotus-compatible epoch),
not the date immediately preceding 1900-01-01. -/
theorem serial_conversion (n : ℕ) (f : ℚ) (h0 : 0 ≤ f) (h1 : f < 1) :
    serialToDay ((n : ℚ) + f) = excelEpochDay + n
  ∧ excelEpochDay = daysFromCivil 1899 12 30
  ∧ daysFromCivil 1900 1 1 - excelEpochDay = 2 := by
  refine ⟨?_, rfl, by decide⟩
  have hnn : (0 : ℚ) ≤ (n : ℚ) + f := by positivity
  have hfloor : ⌊(n : ℚ) + f⌋ = n := by
    rw [show ((n : ℚ) + f) = ((n : ℤ) : ℚ) + f by push_cast; ring]
    rw [Int.floor_int_add]
    have : ⌊f⌋ = 0 := Int.floor_eq_zero_iff.mpr ⟨h0, h1⟩
    omega
  rw [serialToDay, pyInt, if_pos hnn, hfloor]

/-- Witness for C4 (amended) at serial 45900.5. -/
theorem serial_conversion_witness :
    serialToDay ((45900 : ℚ) + 1/2) = excelEpochDay + 45900 :=
  (serial_conversion 45900 (1/2) (by norm_num) (by norm_num)).1

/-- C5 counterexample: with columns
`["日期", "栏号", "单栏采食量A", "单栏采食量B", "单栏喂水量"]`, the first
column matching the feed-quantity predicate is `单栏采食量A`, but the
resolver picks `单栏采食量B` — the last match — because the feed/water
loop has no `break`; so "first matching column wins" fails for the feed
role. -/
theorem column_resolution_cex :
    (["日期", "栏号", "单栏采食量A", "单栏采食量B", "单栏喂水量"].find? isFeedCol
        = some "单栏采食量A")
  ∧ resolve_columns ["日期", "栏号", "单栏采食量A", "单栏采食量B", "单栏喂水量"]
      = .ok ⟨"日期", "栏号", "单栏采食量B", "单栏喂水量"⟩
  ∧ ("单栏采食量B" : String) ≠ "单栏采食量A" := by
  refine ⟨by decide, by decide, by decide⟩

/-- C5 (amended): column identity is resolved by keyword containment on
the trimmed column names; the first matching column wins for the date and
enclosure roles, while for the feed and water roles the last matching
column wins (the loop has no `break`); if any required role has no
matching column, loading fails with an error naming the available columns
instead of aggregating over wrong data. -/
theorem column_resolution_policy (cols : List String) :
    (∀ r, resolve_columns cols = .ok r →
        cols.find? isDateCol = some r.dateCol
      ∧ cols.find? isPenCol = some r.penCol
      ∧ cols.reverse.find? isFeedCol = some r.feedCol
      ∧ cols.reverse.find? isWaterCol = some r.waterCol)
  ∧ (resolve_columns cols = .missingColumn cols ↔
      (cols.find? isDateCol = none ∨ cols.find? isPenCol = none
        ∨ cols.reverse.find? isFeedCol = none ∨ cols.reverse.find? isWaterCol = none)) := by
  unfold resolve_columns
  rw [findFeedWaterCols_eq]
  rcases hd : cols.find? isDateCol with _ | dc
  · constructor
    · intro r hr; cases hr
    · simp
  · rcases hp : cols.find? isPenCol with _ | pc
    · constructor
      · intro r hr; cases hr
      · simp
    · rcases hf : cols.reverse.find? isFeedCol with _ | fc
      · constructor
        · intro r hr; cases hr
        · simp
      · rcases hw : cols.reverse.find? isWaterCol with _ | wc
        · constructor
          · intro r hr; cases hr
          · simp
        · constructor
          · intro r hr
            cases hr
            exact ⟨rfl, rfl, rfl, rfl⟩
          · simp

/-- Witness for C5 (amended) on the counterexample column list. -/
theorem column_resolution_policy_witness :
    (["日期", "栏号", "单栏采食量A", "单栏采食量B", "单栏喂水量"].find? isDateCol
        = some "日期")
  ∧ ["日期", "栏号", "单栏采食量A", "单栏采食量B", "单栏喂水量"].reverse.find? isFeedCol
        = some "单栏采食量B" := by
  have h := (column_resolution_policy
      ["日期", "栏号", "单栏采食量A", "单栏采食量B", "单栏喂水量"]).1
      ⟨"日期", "栏号", "单栏采食量B", "单栏喂水量"⟩ (by decide)
  exact ⟨h.1, h.2.2.1⟩

/-- C6: given a stage table and a head count, every date whose clamped age
`clampAge start_age end_age (start_age + (date − first_date))` resolves to
a (truthy) per-head feed `v` contributes the curve point
`(date, v × head_count, v × 3 × head_count)`, and every curve point arises
this way from a date of the series; in particular, stages (26–30 → 6/5)
and (31–40 → 3/2) with start_age 28, end_age 114 and head count 100 over
three consecutive dates yield standard feed 120 and standard water 360 on
each of the three dates. -/
theorem standard_curve_correct :
    (∀ (standards : List Stage) (hc : ℚ) (sa ea d0 : ℤ) (ds : List ℤ),
        ∀ d ∈ (d0 :: ds), ∀ v : ℚ,
          get_standard_feed_by_age standards (clampAge sa ea (sa + (d - d0))) = some v →
          v ≠ 0 →
          (d, v * hc, v * 3 * hc) ∈ computeStandardCurve standards hc sa ea (d0 :: ds))
  ∧ (∀ (standards : List Stage) (hc : ℚ) (sa ea : ℤ) (dates : List ℤ) (row : ℤ × ℚ × ℚ),
        row ∈ computeStandardCurve standards hc sa ea dates →
        ∃ d0 ds, dates = d0 :: ds ∧ row.1 ∈ dates ∧
        ∃ v : ℚ,
          get_standard_feed_by_age standards (clampAge sa ea (sa + (row.1 - d0))) = some v
          ∧ v ≠ 0 ∧ row.2.1 = v * hc ∧ row.2.2 = v * 3 * hc)
  ∧ computeStandardCurve [⟨26, 30, 6/5⟩, ⟨31, 40, 3/2⟩] 100 28 114
      [daysFromCivil 2025 9 1, daysFromCivil 2025 9 2, daysFromCivil 2025 9 3] =
      [(daysFromCivil 2025 9 1, 120, 360),
       (daysFromCivil 2025 9 2, 120, 360),
       (daysFromCivil 2025 9 3, 120, 360)] := by
  refine ⟨?_, ?_, ?_⟩
  · intro standards hc sa ea d0 ds d hd v hv hv0
    simp only [computeStandardCurve]
    refine List.mem_filterMap.mpr ⟨d, hd, ?_⟩
    simp only [hv, if_pos hv0]
  · intro standards hc sa ea dates row hrow
    cases dates with
    | nil => simp [computeStandardCurve] at hrow
    | cons d0 ds =>
      simp only [computeStandardCurve] at hrow
      obtain ⟨d, hd, hfd⟩ := List.mem_filterMap.mp hrow
      refine ⟨d0, ds, rfl, ?_⟩
      rcases hv : get_standard_feed_by_age standards (clampAge sa ea (sa + (d - d0))) with _ | v
      · rw [hv] at hfd
        simp at hfd
      · rw [hv] at hfd
        dsimp only at hfd
        by_cases hv0 : v = 0
        · rw [if_neg (by simp [hv0])] at hfd
          cases hfd
        · rw [if_pos hv0] at hfd
          cases hfd
          exact ⟨hd, v, hv, hv0, rfl, rfl⟩
  · have h1 : daysFromCivil 2025 9 1 = 20332 := by decide
    have h2 : daysFromCivil 2025 9 2 = 20333 := by decide
    have h3 : daysFromCivil 2025 9 3 = 20334 := by decide
    norm_num [computeStandardCurve, List.filterMap, clampAge, h1, h2, h3,
      get_standard_feed_by_age, List.find?, stageMatches]

/-- Witness for C6 on the concrete scenario table. -/
theorem standard_curve_correct_witness :
    ((daysFromCivil 2025 9 1 : ℤ), (6 : ℚ)/5 * 100, (6 : ℚ)/5 * 3 * 100) ∈
      computeStandardCurve [⟨26, 30, 6/5⟩, ⟨31, 40, 3/2⟩] 100 28 114
        [daysFromCivil 2025 9 1, daysFromCivil 2025 9 2, daysFromCivil 2025 9 3] := by
  refine standard_curve_correct.1 [⟨26, 30, 6/5⟩, ⟨31, 40, 3/2⟩] 100 28 114
      (daysFromCivil 2025 9 1) [daysFromCivil 2025 9 2, daysFromCivil 2025 9 3]
      (daysFromCivil 2025 9 1) (by simp) (6/5) ?_ (by norm_num)
  have h : (28 : ℤ) + (daysFromCivil 2025 9 1 - daysFromCivil 2025 9 1) = 28 := by omega
  rw [h]
  rfl

/-- C7: treatment extraction sums counts per canonical date into a
date→total mapping: for every set of rows, the total recorded for a date
equals the sum of the counts of the selected (non-missing, non-zero) rows
whose numeric date normalizes to it, and a date is absent exactly when no
selected row contributes to it; in particular two treatment rows on
serial 45901 (= 2025-09-01) with counts 3 and 5 yield the single entry
(2025-09-01, 8). -/
theorem treatment_accumulates :
    (∀ (rows : List EventRow) (k : ℤ),
        (List.lookup k (read_treatment_dates rows)).getD 0
          = treatContribSum (rows.filter fun r => countSelected r.treat) k
      ∧ (List.lookup k (read_treatment_dates rows) = none ↔
          ((rows.filter fun r => countSelected r.treat).filter
              fun r => rowSerialDay r.date = some k) = []))
  ∧ (read_treatment_dates
      [⟨.num 45901, none, none, some 3⟩, ⟨.num 45901, none, none, some 5⟩] =
      [(serialToDay 45901, 8)]
    ∧ serialToDay 45901 = daysFromCivil 2025 9 1) := by
  refine ⟨fun rows k => ⟨?_, ?_⟩, ?_, ?_⟩
  · have h := (treat_foldl_invariant (rows.filter fun r => countSelected r.treat) [] k).1
    simp only [read_treatment_dates]
    rw [h]
    simp [List.lookup]
  · have h := (treat_foldl_invariant (rows.filter fun r => countSelected r.treat) [] k).2
    simp only [read_treatment_dates]
    rw [h]
    simp [List.lookup]
  · norm_num [read_treatment_dates, countSelected, List.filter, treatStep,
      rowSerialDay, accAdd, List.foldl]
  · have h : pyInt 45901 = 45901 := by norm_num [pyInt]
    rw [serialToDay, h]
    decide

/-- Witness for C7 at a one-row input. -/
theorem treatment_accumulates_witness :
    (List.lookup (serialToDay 45901)
        (read_treatment_dates [⟨.num 45901, none, none, some 3⟩])).getD 0
      = treatContribSum
          ([⟨.num 45901, none, none, some 3⟩].filter fun r => countSelected r.treat)
          (serialToDay 45901) :=
  (treatment_accumulates.1 [⟨.num 45901, none, none, some 3⟩] (serialToDay 45901)).1

/-- C8: transfer and sale extraction selects exactly the rows whose
respective count column is present and non-zero, normalizes each selected
row's serial-encoded date, and returns ascending sorted lists in which
duplicates are permitted (each result is a permutation of the normalized
dates of the selected rows); a count cell is selected exactly when it
holds a non-zero number, so zero counts contribute nothing; in particular
a sheet with transfer=1 and sale=0 on serial date 45900 yields
transfer_dates = [2025-08-31] and sale_dates = []. -/
theorem transfer_sale_extraction :
    (∀ rows : List EventRow,
        (read_transfer_and_sale_dates rows).1.Pairwise (· ≤ ·)
      ∧ (read_transfer_and_sale_dates rows).2.Pairwise (· ≤ ·)
      ∧ (read_transfer_and_sale_dates rows).1.Perm
          ((rows.filter fun r => countSelected r.transfer).filterMap
            fun r => rowSerialDay r.date)
      ∧ (read_transfer_and_sale_dates rows).2.Perm
          ((rows.filter fun r => countSelected r.sale).filterMap
            fun r => rowSerialDay r.date))
  ∧ (∀ c : Option ℚ, countSelected c = true ↔ ∃ q, c = some q ∧ q ≠ 0)
  ∧ (read_transfer_and_sale_dates [⟨.num 45900, some 1, some 0, none⟩] =
      ([serialToDay 45900], [])
    ∧ serialToDay 45900 = daysFromCivil 2025 8 31) := by
  refine ⟨fun rows => ⟨?_, ?_, ?_, ?_⟩, ?_, ?_, ?_⟩
  · exact List.sorted_insertionSort _ _
  · exact List.sorted_insertionSort _ _
  · exact List.perm_insertionSort _ _
  · exact List.perm_insertionSort _ _
  · intro c
    cases c with
    | none => simp [countSelected]
    | some q => simp [countSelected]
  · simp [read_transfer_and_sale_dates, countSelected, rowSerialDay, List.filter,
      List.filterMap, List.insertionSort, List.orderedInsert]
  · have h : pyInt 45900 = 45900 := by norm_num [pyInt]
    rw [serialToDay, h]
    decide

/-- Witness for C8 at the concrete event sheet. -/
theorem transfer_sale_extraction_witness :
    (read_transfer_and_sale_dates [⟨.num 45900, some 1, some 0, none⟩]).1.Pairwise (· ≤ ·) :=
  (transfer_sale_extraction.1 [⟨.num 45900, some 1, some 0, none⟩]).1

/-- C9: for every event kind (accident, transfer, sale, treatment), a
missing or malformed source — missing file, sheet or expected column —
yields the empty result for that kind (empty list or empty mapping)
rather than raising; an accident column whose values all fail to parse
likewise yields the empty list. -/
theorem missing_source_degrades :
    read_accident_dates none = []
  ∧ read_transfer_and_sale_dates_total none = ([], [])
  ∧ read_treatment_dates_total none = []
  ∧ (∀ cells : List (Option ℤ), (∀ c ∈ cells, c = none) →
      read_accident_dates (some cells) = []) := by
  refine ⟨rfl, rfl, rfl, ?_⟩
  intro cells hc
  have h : cells.filterMap id = [] := by
    rw [List.filterMap_eq_nil_iff]
    intro a ha
    exact hc a ha
  simp [read_accident_dates, h, dedupFirst, List.insertionSort]

/-- Witness for C9 on an all-unparsable accident column. -/
theorem missing_source_degrades_witness :
    read_accident_dates (some [none, none]) = [] :=
  missing_source_degrades.2.2.2 [none, none] (by simp)

/-- C10: in transfer, sale, and treatment extraction, every selected row
whose date cell is not a numeric value (text, datetime-typed, or missing)
is silently dropped and contributes no event, even with a non-missing,
non-zero count: the results coincide with those computed from only the
numeric-dated rows, and concretely a text-dated row with transfer=1 and
sale=1, and a datetime-dated row with treatment=3, produce no events. -/
theorem nonnumeric_dates_dropped :
    (∀ rows : List EventRow,
        read_transfer_and_sale_dates rows
          = read_transfer_and_sale_dates (rows.filter fun r => r.date.isNum)
      ∧ read_treatment_dates rows
          = read_treatment_dates (rows.filter fun r => r.date.isNum))
  ∧ read_transfer_and_sale_dates [⟨.text "2025-09-01", some 1, some 1, none⟩] = ([], [])
  ∧ read_treatment_dates [⟨.dt 20332, none, none, some 3⟩] = [] := by
  refine ⟨fun rows => ⟨?_, ?_⟩, ?_, ?_⟩
  · simp only [read_transfer_and_sale_dates, List.filter_filter]
    rw [filterMap_serial_restrict (fun r => countSelected r.transfer) rows,
      filterMap_serial_restrict (fun r => countSelected r.sale) rows]
  · simp only [read_treatment_dates, List.filter_filter]
    rw [treat_fold_restrict rows]
  · simp [read_transfer_and_sale_dates, List.filter, countSelected, rowSerialDay,
      List.filterMap, List.insertionSort]
  · simp [read_treatment_dates, List.filter, countSelected, rowSerialDay, treatStep,
      List.foldl]

end FeedViz
